import Mathlib

/-!
# tcpscan01: a shallow embedding of `tcpscan01.c`

The C program is a concurrent TCP port scanner.  This development embeds the
pieces of `tcpscan01.c` that carry its logic:

* the "thread safe stack" (`ts_stack_t`, `stack_init`, `stack_push`, `stack_pop`),
* the build loop of `main` and the worker loop of `connect_routine`,
* the option parser (`int_opt_parser`, `parse_ports`, `set_options`),
* the banner buffer handling of `connect_routine`.

Conventions.  A C `int` is an `Int`; conversions that narrow are written out
(`to_int`, `to_size_t`).  A pointer that may be `NULL` is an `Option`.  A call
that ends the process (`exit`, `panic`) or whose behaviour the C standard leaves
undefined is an `Except.error` carrying an `Abort`.  C strings are lists of
`Char`, one `Char` per byte, and the terminator is `NUL`.
-/

namespace Tcpscan

/-! ## Process exits -/

/-- Ways a call can fail to return to its caller. -/
inductive Abort where
  /-- The process ended through `exit(EXIT_FAILURE)` (`puts_exit`, `panic`, a rejected option). -/
  | exit_failure
  /-- The process ended through `exit(EXIT_SUCCESS)` (the `-h` option). -/
  | exit_success
  /-- The step has no defined behaviour in C (out-of-bounds access, signed overflow). -/
  | undefined
  deriving DecidableEq, Repr

/-- Largest value of a C `int` (32 bits). -/
def INT_MAX : Int := 2147483647

/-- Conversion of an integer value to a 32-bit `int`: reduction modulo `2^32` into
`[-2^31, 2^31)`. -/
def to_int (v : Int) : Int := (v + 2147483648) % 4294967296 - 2147483648

/-- Conversion of an integer value to a 64-bit `size_t`. -/
def to_size_t (v : Int) : Nat := (v % 18446744073709551616).toNat

/-! ## The thread safe stack -/

/-- The state of `struct ts_stack_t`.  The mutex carries no data: every operation
below is one critical section, so it is one atomic step of the model.  `data` is
the array behind `void** data`, one `Option` per slot (`none` is `NULL`). -/
structure ts_stack_t (α : Type) where
  data : List (Option α)
  max : Nat
  top : Int
  deriving DecidableEq, Repr

/-- Body of `stack_init`: `top = -1`, `max = max_capacity` (converted to `size_t`),
`data = calloc(max_capacity, sizeof(void *))`.  A negative `max_capacity` converts to
a count whose byte size overflows `size_t`, for which `calloc` returns `NULL` and the
function panics; otherwise the allocation is zero filled. -/
def stack_init {α : Type} (max_capacity : Int) : Except Abort (ts_stack_t α) :=
  if max_capacity < 0 then .error .exit_failure
  else .ok { data := List.replicate (to_size_t max_capacity) none
             max := to_size_t max_capacity
             top := -1 }

/-- Body of `stack_push`: panic when `top + 1 >= (int)max`, else `data[++top] = data`.
A store outside the allocation is undefined. -/
def stack_push {α : Type} (stack : ts_stack_t α) (data : Option α) :
    Except Abort (ts_stack_t α) :=
  if stack.top + 1 ≥ to_int stack.max then .error .exit_failure
  else if stack.top + 1 < 0 ∨ (stack.data.length : Int) ≤ stack.top + 1 then .error .undefined
  else .ok { stack with top := stack.top + 1
                        data := stack.data.set (stack.top + 1).toNat data }

/-- Successive `stack_push` calls, one per element, in list order. -/
def push_all {α : Type} : ts_stack_t α → List (Option α) → Except Abort (ts_stack_t α)
  | s, [] => .ok s
  | s, x :: xs =>
    match stack_push s x with
    | .error e => .error e
    | .ok s1 => push_all s1 xs

/-- Number of items a stack holds. -/
def ts_stack_t.count {α : Type} (s : ts_stack_t α) : Int := s.top + 1

/-- Shape of a stack that `stack_init` made and `stack_push` filled: the capacity is
an `int` value, the array has `max` slots and `top` lies in `[-1, max)`. -/
structure ts_stack_t.WF {α : Type} (s : ts_stack_t α) : Prop where
  max_int : (s.max : Int) ≤ INT_MAX
  len : s.data.length = s.max
  top_lo : -1 ≤ s.top
  top_hi : s.top < s.max

/-- Address family `AF_INET`. -/
def AF_INET : Int := 2

/-- Address family `AF_UNSPEC`. -/
def AF_UNSPEC : Int := 0

/-- The global option variables of the program together with `errno`.  `opt_ports`
holds the cells `opt_ports[0 .. opt_ports_len)` of the 65536-cell array, so
`opt_ports_len` is its length; `opt_host` is `none` for `NULL`. -/
structure options_t where
  opt_v : Int
  opt_ipv6 : Int
  opt_thr : Int
  opt_to : Int
  opt_host : Option (List Char)
  opt_bg : Int
  opt_ports : List Int
  errno : Int
  deriving DecidableEq, Repr

/-- The initialisers of the globals, and `errno` as it is at program start. -/
def initial_options : options_t :=
  { opt_v := 0, opt_ipv6 := 0, opt_thr := 5, opt_to := 500000, opt_host := none,
    opt_bg := 0, opt_ports := [], errno := 0 }

/-- The default, in milliseconds, that the help text of `print_help` states for `-t`:
"Sets the connection timeout (default: 100; 50 to 10000 milliseconds)." -/
def HELP_DEFAULT_TIMEOUT_MS : Int := 100

/-- The counter `opt_ports_len`. -/
def options_t.opt_ports_len (o : options_t) : Nat := o.opt_ports.length

/-- Largest value of a C `long` (64 bits). -/
def LONG_MAX : Int := 9223372036854775807

/-- Smallest value of a C `long` (64 bits). -/
def LONG_MIN : Int := -9223372036854775808

/-- The `errno` value `ERANGE`. -/
def ERANGE : Int := 34

/-- The libc `isspace` in the C locale: space and the control characters 9 to 13. -/
def isspace (c : Char) : Bool := c.toNat = 32 || (9 ≤ c.toNat && c.toNat ≤ 13)

/-- The libc `isdigit`. -/
def isdigit (c : Char) : Bool := 48 ≤ c.toNat && c.toNat ≤ 57

/-- The digit loop of `strtol` in base 10: consumes the longest run of digits, and
gives the value read so far, whether a digit was consumed, and the unread text. -/
def strtol_digits : List Char → Nat → Bool → Nat × Bool × List Char
  | [], acc, any => (acc, any, [])
  | c :: cs, acc, any =>
    if isdigit c then strtol_digits cs (acc * 10 + (c.toNat - 48)) true
    else (acc, any, c :: cs)

/-- The libc `strtol(str, &end, 10)` for a 64-bit `long`: white space is skipped, one
sign is accepted, then digits are read.  The result is the value, the text `end`
points at, and `errno` after the call.  Without any digit the value is 0 and `end`
is `str`; a value outside `long` is clamped and `errno` becomes `ERANGE`. -/
def strtol (errno : Int) (str : List Char) : Int × List Char × Int :=
  let s1 := str.dropWhile isspace
  let signed : Bool × List Char :=
    match s1 with
    | c :: t => if c = '-' then (true, t) else if c = '+' then (false, t) else (false, s1)
    | [] => (false, s1)
  match strtol_digits signed.2 0 false with
  | (v, any, rest) =>
    if any = false then (0, str, errno)
    else if signed.1 then
      (if -(v : Int) < LONG_MIN then (LONG_MIN, rest, ERANGE) else (-(v : Int), rest, errno))
    else
      (if (v : Int) > LONG_MAX then (LONG_MAX, rest, ERANGE) else ((v : Int), rest, errno))

/-- The loop `while (*errors) if (*errors++ != ' ') ++has_invalid_char;`. -/
def count_invalid : List Char → Int
  | [] => 0
  | c :: cs => (if c ≠ ' ' then 1 else 0) + count_invalid cs

/-- Body of the C function `int_opt_parser`.  The `long` that `strtol` gives is stored in the `int`
`parsed`; the value is invalid when `errno` is set, a character other than a space
follows the number, or `parsed` is outside `[min, max]`, and then the process exits.
Otherwise `errno` is cleared and `parsed` returned.  The result pairs the returned
value with `errno`.  (`param` only appears in the message.) -/
def int_opt_parse (errno : Int) (_param : String) (str : List Char) (min max : Int) :
    Except Abort (Int × Int) :=
  match strtol errno str with
  | (v, errors, errno1) =>
    let parsed := to_int v
    let has_invalid_char := count_invalid errors
    if has_invalid_char > INT_MAX then .error .undefined
    else if errno1 ≠ 0 ∨ has_invalid_char ≠ 0 ∨ parsed < min ∨ parsed > max then
      .error .exit_failure
    else .ok (parsed, 0)

/-- One call of the libc `strtok` with the single delimiter `delim`, on the text left
at its saved position: `none` when no token is left, else the token and the text
after the delimiter that ended it. -/
def strtok (saved : List Char) (delim : Char) : Option (List Char × List Char) :=
  match saved.dropWhile (fun c => c = delim) with
  | [] => none
  | c :: cs =>
    some ((c :: cs).takeWhile (fun x => x ≠ delim),
          ((c :: cs).dropWhile (fun x => x ≠ delim)).drop 1)

/-- The `while (token != NULL)` loop of `parse_ports`; `saved` is the text `strtok`
has not consumed yet.  Every round consumes at least one character of `saved`, and
`fuel` bounds the number of rounds.  A store past the 65536 cells of `opt_ports` is
undefined. -/
def parse_ports_loop : Nat → options_t → List Char → Except Abort options_t
  | 0, _, _ => .error .undefined
  | fuel + 1, o, saved =>
    match strtok saved ',' with
    | none => .ok o
    | some (token, saved1) =>
      match int_opt_parse o.errno "-p" token 1 65535 with
      | .error e => .error e
      | .ok (port, errno1) =>
        if o.opt_ports.length ≥ 65536 then .error .undefined
        else parse_ports_loop fuel
          { o with opt_ports := o.opt_ports ++ [port], errno := errno1 } saved1

/-- Body of `parse_ports`.  The loop runs at most once per character of `ports`, so
`ports.length + 1` rounds always suffice. -/
def parse_ports (o : options_t) (ports : List Char) : Except Abort options_t :=
  parse_ports_loop (ports.length + 1) o ports

/-- The statements of `case '6'` in `set_options`. -/
def set_options_case_6 (o : options_t) : options_t := { o with opt_ipv6 := 1 }

/-- The `switch (opt)` of `set_options` for one result of `getopt`: the option
character and its argument `optarg`.  `case 't'` has no `break` and runs on into
`case '6'`. -/
def set_options_switch (o : options_t) (opt : Char) (optarg : List Char) :
    Except Abort options_t :=
  if opt = 'v' then .ok { o with opt_v := 1 }
  else if opt = 'c' then
    match int_opt_parse o.errno "-c" optarg 1 50 with
    | .error e => .error e
    | .ok (v, errno1) => .ok { o with opt_thr := v, errno := errno1 }
  else if opt = 't' then
    match int_opt_parse o.errno "-t" optarg 50 100000 with
    | .error e => .error e
    | .ok (v, errno1) => .ok (set_options_case_6 { o with opt_to := v * 1000, errno := errno1 })
  else if opt = '6' then .ok (set_options_case_6 o)
  else if opt = 'H' then .ok { o with opt_host := some optarg }
  else if opt = 'b' then .ok { o with opt_bg := 1 }
  else if opt = 'p' then parse_ports o optarg
  else if opt = 'h' then .error .exit_success
  else .error .exit_failure

/-- The `while ((opt = getopt(...)) != -1)` loop of `set_options`, over the results
`getopt` gives for the command line, in order. -/
def set_options_loop : options_t → List (Char × List Char) → Except Abort options_t
  | o, [] => .ok o
  | o, (opt, optarg) :: rest =>
    match set_options_switch o opt optarg with
    | .error e => .error e
    | .ok o1 => set_options_loop o1 rest

/-- Body of `set_options`: the loop, then the checks that a host and at least one
port were given. -/
def set_options (o : options_t) (opts : List (Char × List Char)) : Except Abort options_t :=
  match set_options_loop o opts with
  | .error e => .error e
  | .ok o1 =>
    if o1.opt_host = none then .error .exit_failure
    else if o1.opt_ports_len = 0 then .error .exit_failure
    else .ok o1

/-- The address family `get_host_addresses` asks `getaddrinfo` for. -/
def get_host_addresses_family (o : options_t) : Int :=
  if o.opt_ipv6 ≠ 0 then AF_UNSPEC else AF_INET

/-- The number a run of decimal digits denotes, read left to right on top of `acc`. -/
def decimal_value : List Char → Nat → Nat
  | [], acc => acc
  | c :: cs, acc => decimal_value cs (acc * 10 + (c.toNat - 48))

/-- The decimal numeral of a natural number, as `Nat.repr` writes it. -/
def numeral (n : Nat) : List Char := Nat.toDigits 10 n

/-- The text of a port list: the numerals joined by commas. -/
def ports_text (ps : List Nat) : List Char :=
  List.intercalate [','] (ps.map numeral)

/-! ## The report buffer of `connect_routine` -/

/-- The string terminator. -/
def NUL : Char := Char.ofNat 0

/-- The value `sizeof("[OPEN] | ")`: nine characters and the terminator. -/
def sizeof_open : Int := 10

/-- The value `sizeof(buffer)` for `char buffer[1024 + OPEN_SIZE]`, where `OPEN_SIZE`
is the token sequence `sizeof("[OPEN] | ")-1`. -/
def sizeof_buffer : Int := 1024 + sizeof_open - 1

/-- The offset `OPEN_SIZE` in `buffer + OPEN_SIZE`, that is `buffer + sizeof("[OPEN] | ")-1`. -/
def recv_offset : Int := sizeof_open - 1

/-- The length `sizeof(buffer) - OPEN_SIZE` passed to `recv`.  The macro is pasted
without parentheses, so this is `sizeof(buffer) - sizeof("[OPEN] | ")-1`. -/
def recv_len : Int := sizeof_buffer - sizeof_open - 1

/-- The offset `OPEN_SIZE + r - 2` of `strcpy(buffer + OPEN_SIZE + r - 2, " | ")`. -/
def separator_offset (r : Int) : Int := sizeof_open - 1 + r - 2

/-- The libc `strcpy(dest + off, src)` into an array `dest`: the characters of `src`
and the terminator are stored from `off` on.  A store outside `dest` is undefined. -/
def strcpy (dest : List Char) (off : Int) (src : List Char) : Except Abort (List Char) :=
  if off < 0 ∨ (dest.length : Int) < off + src.length + 1 then .error .undefined
  else .ok (dest.take off.toNat ++ (src ++ [NUL]) ++ dest.drop (off.toNat + src.length + 1))

/-- The indices that `strcpy(dest + off, src)` stores to. -/
def strcpy_indices (off : Int) (src : List Char) : List Int :=
  (List.range (src.length + 1)).map (fun (i : Nat) => off + (i : Int))

/-- The libc `recv(sfd, dest + off, len, 0)`.  `incoming` is what the socket has for
the call: `none` when the call fails or times out (the result is -1 and `dest` is
left alone), else the bytes the peer has sent, of which at most `len` are stored from
`off` on.  The result pairs the return value with the array. -/
def recv (dest : List Char) (off : Int) (len : Int) (incoming : Option (List Char)) :
    Int × List Char :=
  match incoming with
  | none => (-1, dest)
  | some bytes =>
    let got := bytes.take len.toNat
    ((got.length : Int), dest.take off.toNat ++ got ++ dest.drop (off.toNat + got.length))

/-- The C string held in an array: the characters before the first terminator. -/
def cstr (buf : List Char) : List Char := buf.takeWhile (fun c => c ≠ NUL)

/-- The text `"[OPEN] | "`. -/
def OPEN_TEXT : List Char := ['[', 'O', 'P', 'E', 'N', ']', ' ', '|', ' ']

/-- The text `"[CLOSED] | "`. -/
def CLOSED_TEXT : List Char := ['[', 'C', 'L', 'O', 'S', 'E', 'D', ']', ' ', '|', ' ']

/-- The text `" | "`. -/
def SEPARATOR_TEXT : List Char := [' ', '|', ' ']

/-- Outcome of a probe. -/
inductive outcome_t where
  | OPEN
  | CLOSED
  deriving DecidableEq, Repr

/-- The part of one iteration of `connect_routine` after `connect` returned `err`:
the classification and the prefix string handed to `print_ip` (`none` when nothing is
printed).  `incoming` is what `recv` will find on the socket. -/
def connect_routine_report (opt_bg opt_v : Int) (err : Int) (incoming : Option (List Char)) :
    Except Abort (outcome_t × Option (List Char)) :=
  if err = 0 then
    match strcpy (List.replicate sizeof_buffer.toNat NUL) 0 OPEN_TEXT with
    | .error e => .error e
    | .ok buffer =>
      if opt_bg ≠ 0 then
        match recv buffer recv_offset recv_len incoming with
        | (r, buffer1) =>
          match strcpy buffer1 (separator_offset r) SEPARATOR_TEXT with
          | .error e => .error e
          | .ok buffer2 => .ok (.OPEN, some (cstr buffer2))
      else .ok (.OPEN, some (cstr buffer))
  else if opt_v ≠ 0 then .ok (.CLOSED, some CLOSED_TEXT)
  else .ok (.CLOSED, none)

/-- The banner with its trailing line-termination bytes (CR, LF) removed. -/
def trim_line_end (b : List Char) : List Char :=
  (b.reverse.dropWhile (fun c => c = Char.ofNat 13 ∨ c = Char.ofNat 10)).reverse

/-! ## The worker pool draining the stack -/

theorem to_int_of_nonneg_le {v : Int} (h0 : 0 ≤ v) (h1 : v ≤ INT_MAX) : to_int v = v := by
  unfold to_int
  unfold INT_MAX at h1
  omega

theorem to_size_t_of_nonneg_le {v : Int} (h0 : 0 ≤ v) (h1 : v ≤ INT_MAX) :
    (to_size_t v : Int) = v := by
  unfold to_size_t
  unfold INT_MAX at h1
  omega

/-! ## The stack -/

theorem stack_init_wf {α : Type} {cap : Int} {s : ts_stack_t α} (h1 : cap ≤ INT_MAX)
    (h : stack_init cap = .ok s) : s.WF ∧ (s.max : Int) = cap ∧ s.top = -1 := by
  unfold stack_init at h
  split at h
  · cases h
  · have hc : (to_size_t cap : Int) = cap := to_size_t_of_nonneg_le (by omega) h1
    injection h with h
    subst h
    refine ⟨⟨?_, ?_, ?_, ?_⟩, hc, rfl⟩
    · show ((to_size_t cap : Nat) : Int) ≤ INT_MAX
      omega
    · simp
    · simp
    · show (-1 : Int) < ((to_size_t cap : Nat) : Int)
      omega

/-- A push on a well-formed stack that is not full. -/
theorem stack_push_ok {α : Type} {s : ts_stack_t α} (x : Option α) (h : s.WF)
    (hroom : s.top + 1 < s.max) :
    stack_push s x = .ok { s with top := s.top + 1
                                  data := s.data.set (s.top + 1).toNat x } := by
  have hm := h.max_int
  have hl := h.len
  have hlo := h.top_lo
  unfold stack_push
  rw [to_int_of_nonneg_le (by omega) hm, if_neg (by omega), if_neg (by omega)]

/-- A push on a well-formed stack that is full. -/
theorem stack_push_full {α : Type} {s : ts_stack_t α} (x : Option α) (h : s.WF)
    (hfull : s.top + 1 = s.max) : stack_push s x = .error .exit_failure := by
  have hm := h.max_int
  unfold stack_push
  rw [to_int_of_nonneg_le (by omega) hm, if_pos (by omega)]

theorem stack_push_wf {α : Type} {s s1 : ts_stack_t α} {x : Option α} (h : s.WF)
    (hp : stack_push s x = .ok s1) :
    s1.WF ∧ s1.max = s.max ∧ s1.top = s.top + 1 ∧
      s1.data = s.data.set (s.top + 1).toNat x := by
  have hhi := h.top_hi
  by_cases hroom : s.top + 1 < s.max
  · rw [stack_push_ok x h hroom] at hp
    injection hp with hp
    subst hp
    refine ⟨⟨h.max_int, ?_, ?_, ?_⟩, rfl, rfl, rfl⟩
    · simpa using h.len
    · have := h.top_lo
      show (-1 : Int) ≤ s.top + 1
      omega
    · exact hroom
  · rw [stack_push_full x h (by omega)] at hp
    cases hp

theorem push_all_wf {α : Type} (xs : List (Option α)) :
    ∀ {s s1 : ts_stack_t α}, s.WF → push_all s xs = .ok s1 →
      s1.WF ∧ s1.max = s.max ∧ s1.top = s.top + xs.length := by
  induction xs with
  | nil =>
    intro s s1 h hp
    simp only [push_all] at hp
    injection hp with hp
    subst hp
    exact ⟨h, rfl, by simp⟩
  | cons x xs ih =>
    intro s s1 h hp
    simp only [push_all] at hp
    cases hq : stack_push s x with
    | error e => rw [hq] at hp; cases hp
    | ok s2 =>
      rw [hq] at hp
      obtain ⟨w2, m2, t2, _⟩ := stack_push_wf h hq
      obtain ⟨w1, m1, t1⟩ := ih w2 hp
      refine ⟨w1, by rw [m1, m2], ?_⟩
      rw [t1, t2]
      simp only [List.length_cons, Nat.cast_add, Nat.cast_one]
      omega

/-- C3: on every stack state with `-1 ≤ top < max` (capacity an `int` value, `max`
slots), `stack_push` ends the process exactly when `top + 1 = max`; otherwise it
returns, stores the item in slot `top + 1`, raises the item count by one and leaves
the slots `0 .. top` as they were.  Hence after any pushes on a stack made by
`stack_init cap` the item count is at most `cap`. -/
theorem stack_push_fatal_iff_full {α : Type} (s : ts_stack_t α) (x : Option α) (h : s.WF) :
    (stack_push s x = .error .exit_failure ↔ s.top + 1 = s.max) ∧
    (s.top + 1 ≠ s.max →
      ∃ s1, stack_push s x = .ok s1 ∧
        s1.data[(s.top + 1).toNat]? = some x ∧
        s1.count = s.count + 1 ∧ s1.max = s.max ∧
        (∀ i : Nat, (i : Int) ≤ s.top → s1.data[i]? = s.data[i]?) ∧
        s1.count ≤ s.max) ∧
    (∀ (cap : Int) (xs : List (Option α)) (s0 s2 : ts_stack_t α), cap ≤ INT_MAX →
      stack_init cap = .ok s0 → push_all s0 xs = .ok s2 → s2.count ≤ cap) := by
  have hhi := h.top_hi
  have hlo := h.top_lo
  have hl := h.len
  refine ⟨⟨?_, stack_push_full x h⟩, ?_, ?_⟩
  · intro hp
    by_contra hne
    rw [stack_push_ok x h (by omega)] at hp
    cases hp
  · intro hne
    have hroom : s.top + 1 < s.max := by omega
    refine ⟨_, stack_push_ok x h hroom, ?_, ?_, rfl, ?_, ?_⟩
    · show (s.data.set (s.top + 1).toNat x)[(s.top + 1).toNat]? = some x
      rw [List.getElem?_set_self (by omega)]
    · show s.top + 1 + 1 = s.top + 1 + 1
      rfl
    · intro i hi
      show (s.data.set (s.top + 1).toNat x)[i]? = s.data[i]?
      rw [List.getElem?_set_ne (by omega)]
    · show s.top + 1 + 1 ≤ (s.max : Int)
      omega
  · intro cap xs s0 s2 hcap h0 hp
    obtain ⟨w0, m0, t0⟩ := stack_init_wf hcap h0
    obtain ⟨w2, m2, _⟩ := push_all_wf xs w0 hp
    have := w2.top_hi
    show s2.top + 1 ≤ cap
    rw [m2] at this
    omega

theorem stack_push_fatal_iff_full_witness :
    (stack_push ({ data := [some 7, none], max := 2, top := 0 } : ts_stack_t Nat) (some 9)
        = .error .exit_failure ↔ (0 : Int) + 1 = (2 : Nat)) ∧
    ((0 : Int) + 1 ≠ (2 : Nat) →
      ∃ s1, stack_push ({ data := [some 7, none], max := 2, top := 0 } : ts_stack_t Nat) (some 9)
          = .ok s1 ∧
        s1.data[((0 : Int) + 1).toNat]? = some (some 9) ∧
        s1.count = ts_stack_t.count ({ data := [some 7, none], max := 2, top := 0 } : ts_stack_t Nat) + 1 ∧
        s1.max = 2 ∧
        (∀ i : Nat, (i : Int) ≤ 0 →
          s1.data[i]? = ([some 7, none] : List (Option Nat))[i]?) ∧
        s1.count ≤ (2 : Nat)) ∧
    (∀ (cap : Int) (xs : List (Option Nat)) (s0 s2 : ts_stack_t Nat), cap ≤ INT_MAX →
      stack_init cap = .ok s0 → push_all s0 xs = .ok s2 → s2.count ≤ cap) :=
  stack_push_fatal_iff_full _ (some 9)
    ⟨by decide, by decide, by decide, by decide⟩

/-! ## Contents of the stack -/

theorem open_text_length : OPEN_TEXT.length = 9 := rfl

theorem buffer_after_open :
    strcpy (List.replicate sizeof_buffer.toNat NUL) 0 OPEN_TEXT
      = .ok (OPEN_TEXT ++ List.replicate 1024 NUL) := by
  have e : sizeof_buffer.toNat = 1033 := by decide
  unfold strcpy
  rw [e, if_neg (by
    simp only [List.length_replicate, open_text_length]
    decide)]
  simp only [open_text_length, Int.toNat_zero, List.take_zero, List.nil_append, Nat.zero_add,
    List.drop_replicate, List.append_assoc, List.singleton_append]
  rfl

theorem takeWhile_append_stop {β : Type} (p : β → Bool) (l : List β) (a : β) (r : List β)
    (hl : ∀ x ∈ l, p x = true) (ha : p a = false) :
    (l ++ a :: r).takeWhile p = l := by
  induction l with
  | nil => simp [List.takeWhile_cons, ha]
  | cons x l ih =>
    have hx : p x = true := hl x (List.mem_cons_self _ _)
    simp only [List.cons_append, List.takeWhile_cons, hx, if_true, List.cons.injEq, true_and]
    exact ih (fun y hy => hl y (List.mem_cons_of_mem _ hy))

theorem cstr_append_nul (l r : List Char) (hl : ∀ c ∈ l, c ≠ NUL) :
    cstr (l ++ NUL :: r) = l := by
  unfold cstr
  apply takeWhile_append_stop
  · intro x hx
    simpa using hl x hx
  · simp

theorem cstr_open_buffer : cstr (OPEN_TEXT ++ List.replicate 1024 NUL) = OPEN_TEXT := by
  have e : List.replicate 1024 NUL = NUL :: List.replicate 1023 NUL := rfl
  rw [e]
  apply cstr_append_nul
  decide

/-- What `recv` leaves in the buffer and returns when the socket has the bytes `b`. -/
theorem recv_open_buffer (b : List Char) :
    recv (OPEN_TEXT ++ List.replicate 1024 NUL) recv_offset recv_len (some b)
      = (((b.take 1022).length : Int),
          OPEN_TEXT ++ (b.take 1022 ++ List.replicate (1024 - (b.take 1022).length) NUL)) := by
  have e1 : recv_len.toNat = 1022 := by decide
  have e2 : recv_offset.toNat = OPEN_TEXT.length := by decide
  unfold recv
  simp only [e1, e2, List.take_left', List.drop_append, List.drop_replicate,
    List.append_assoc]

/-- The separator write after `recv` stored `g` (at most 1022 bytes). -/
theorem strcpy_separator (g : List Char) (hg : g.length ≤ 1022) :
    strcpy (OPEN_TEXT ++ (g ++ List.replicate (1024 - g.length) NUL))
        (separator_offset g.length) SEPARATOR_TEXT
      = .ok ((OPEN_TEXT ++ (g ++ List.replicate (1024 - g.length) NUL)).take (g.length + 7)
          ++ (SEPARATOR_TEXT ++ [NUL])
          ++ (OPEN_TEXT ++ (g ++ List.replicate (1024 - g.length) NUL)).drop
              (g.length + 7 + SEPARATOR_TEXT.length + 1)) := by
  have e : (separator_offset g.length).toNat = g.length + 7 := by
    unfold separator_offset sizeof_open
    omega
  have e3 : SEPARATOR_TEXT.length = 3 := rfl
  unfold strcpy
  rw [if_neg (by
    simp only [List.length_append, open_text_length, List.length_replicate, e3]
    unfold separator_offset sizeof_open
    push_cast
    omega), e]

theorem report_with_banner (opt_bg opt_v : Int) (b : List Char) (hbg : opt_bg ≠ 0)
    (h2 : 2 ≤ b.length) (h : b.length ≤ 1022) (hnul : ∀ c ∈ b, c ≠ NUL) :
    connect_routine_report opt_bg opt_v 0 (some b)
      = .ok (.OPEN, some (OPEN_TEXT ++ b.take (b.length - 2) ++ SEPARATOR_TEXT)) := by
  have hb : b.take 1022 = b := List.take_of_length_le h
  unfold connect_routine_report
  rw [if_pos rfl, buffer_after_open]
  simp only [if_pos hbg, recv_open_buffer, hb, strcpy_separator b h]
  have e : (OPEN_TEXT ++ (b ++ List.replicate (1024 - b.length) NUL)).take (b.length + 7)
      = OPEN_TEXT ++ b.take (b.length - 2) := by
    have e9 : b.length + 7 = OPEN_TEXT.length + (b.length - 2) := by
      rw [open_text_length]; omega
    rw [e9, List.take_append, List.take_append_of_le_length (by omega)]
  rw [e]
  have e2 : OPEN_TEXT ++ b.take (b.length - 2) ++ (SEPARATOR_TEXT ++ [NUL])
        ++ (OPEN_TEXT ++ (b ++ List.replicate (1024 - b.length) NUL)).drop
            (b.length + 7 + SEPARATOR_TEXT.length + 1)
      = (OPEN_TEXT ++ b.take (b.length - 2) ++ SEPARATOR_TEXT) ++ NUL ::
          (OPEN_TEXT ++ (b ++ List.replicate (1024 - b.length) NUL)).drop
            (b.length + 7 + SEPARATOR_TEXT.length + 1) := by
    simp only [List.append_assoc, List.singleton_append]
  rw [e2, cstr_append_nul]
  intro c hc
  simp only [List.mem_append] at hc
  rcases hc with (hc | hc) | hc
  · revert c
    decide
  · exact hnul c (List.mem_of_mem_take hc)
  · revert c
    decide

/-- The separator write after a failed `recv`: it lands on the last three characters
of `"[OPEN] | "` and its terminator, and stores what was there. -/
theorem strcpy_separator_silent :
    strcpy (OPEN_TEXT ++ List.replicate 1024 NUL) (separator_offset (-1)) SEPARATOR_TEXT
      = .ok (OPEN_TEXT ++ List.replicate 1024 NUL) := by
  have e : (separator_offset (-1)).toNat = 6 := by decide
  have e3 : SEPARATOR_TEXT.length = 3 := rfl
  unfold strcpy
  rw [if_neg (by
    simp only [List.length_append, open_text_length, List.length_replicate, e3]
    decide), e, e3, List.take_append_of_le_length (by decide)]
  have e10 : 6 + 3 + 1 = OPEN_TEXT.length + 1 := rfl
  rw [e10, List.drop_append, List.drop_replicate]
  rfl

theorem recv_failed (dest : List Char) (off len : Int) : recv dest off len none = (-1, dest) :=
  rfl

set_option maxRecDepth 20000 in
theorem report_silent (opt_bg opt_v : Int) (hbg : opt_bg ≠ 0) :
    connect_routine_report opt_bg opt_v 0 none = .ok (.OPEN, some OPEN_TEXT) := by
  unfold connect_routine_report
  rw [if_pos rfl, buffer_after_open]
  simp only [if_pos hbg, recv_failed, strcpy_separator_silent, cstr_open_buffer]

theorem report_no_banner_grab (opt_v : Int) (incoming : Option (List Char)) :
    connect_routine_report 0 opt_v 0 incoming = .ok (.OPEN, some OPEN_TEXT) := by
  unfold connect_routine_report
  rw [if_pos rfl, buffer_after_open]
  show (if (0 : Int) ≠ 0 then _
    else Except.ok (outcome_t.OPEN, some (cstr (OPEN_TEXT ++ List.replicate 1024 NUL)))) = _
  rw [if_neg (by decide), cstr_open_buffer]

theorem recv_result_range (dest : List Char) (incoming : Option (List Char)) :
    -1 ≤ (recv dest recv_offset recv_len incoming).1 ∧
      (recv dest recv_offset recv_len incoming).1 ≤ 1022 := by
  have e1 : recv_len.toNat = 1022 := by decide
  cases incoming with
  | none => simp [recv]
  | some b =>
    have := List.length_take_le 1022 b
    simp only [recv, e1]
    omega

theorem separator_indices_range (r : Int) (h0 : -1 ≤ r) (h1 : r ≤ 1022) :
    ∀ i ∈ strcpy_indices (separator_offset r) SEPARATOR_TEXT, 0 ≤ i ∧ i ≤ 1032 := by
  intro i hi
  rw [strcpy_indices, List.mem_map] at hi
  obtain ⟨k, hk, rfl⟩ := hi
  rw [List.mem_range] at hk
  have e3 : SEPARATOR_TEXT.length = 3 := rfl
  rw [e3] at hk
  have hk0 : (0 : Int) ≤ (k : Int) := Int.ofNat_nonneg k
  have hk1 : (k : Int) < 4 := by exact_mod_cast hk
  show 0 ≤ separator_offset r + (k : Int) ∧ separator_offset r + (k : Int) ≤ 1032
  unfold separator_offset sizeof_open
  omega

set_option maxRecDepth 20000 in
theorem report_defined (opt_bg opt_v err : Int) (incoming : Option (List Char)) :
    ∃ res, connect_routine_report opt_bg opt_v err incoming = .ok res := by
  by_cases herr : err = 0
  · subst herr
    by_cases hbg : opt_bg = 0
    · subst hbg
      exact ⟨_, report_no_banner_grab opt_v incoming⟩
    · cases incoming with
      | none => exact ⟨_, report_silent opt_bg opt_v hbg⟩
      | some b =>
        unfold connect_routine_report
        rw [if_pos rfl, buffer_after_open]
        simp only [if_pos hbg, recv_open_buffer,
          strcpy_separator (b.take 1022) (List.length_take_le 1022 b)]
        exact ⟨_, rfl⟩
  · unfold connect_routine_report
    rw [if_neg herr]
    by_cases hv : opt_v = 0
    · rw [if_neg (by simpa using hv)]
      exact ⟨_, rfl⟩
    · rw [if_pos hv]
      exact ⟨_, rfl⟩

set_option maxRecDepth 20000 in
theorem report_one_byte (opt_bg opt_v : Int) (c : Char) (hbg : opt_bg ≠ 0) :
    connect_routine_report opt_bg opt_v 0 (some [c])
      = .ok (.OPEN, some (OPEN_TEXT.take 8 ++ SEPARATOR_TEXT)) := by
  have hb : ([c] : List Char).take 1022 = [c] := rfl
  have hc1 : ([c] : List Char).length ≤ 1022 := Nat.le_add_left 1 1021
  unfold connect_routine_report
  rw [if_pos rfl, buffer_after_open]
  simp only [if_pos hbg, recv_open_buffer, hb, strcpy_separator [c] hc1]
  have e : (OPEN_TEXT ++ ([c] ++ List.replicate (1024 - ([c] : List Char).length) NUL)).take
      (([c] : List Char).length + 7) = OPEN_TEXT.take 8 := by
    have h8 : ([c] : List Char).length + 7 ≤ OPEN_TEXT.length := Nat.le_succ 8
    rw [List.take_append_of_le_length h8]
    rfl
  rw [e]
  have e2 : OPEN_TEXT.take 8 ++ (SEPARATOR_TEXT ++ [NUL])
        ++ (OPEN_TEXT ++ ([c] ++ List.replicate (1024 - ([c] : List Char).length) NUL)).drop
            (([c] : List Char).length + 7 + SEPARATOR_TEXT.length + 1)
      = (OPEN_TEXT.take 8 ++ SEPARATOR_TEXT) ++ NUL ::
          (OPEN_TEXT ++ ([c] ++ List.replicate (1024 - ([c] : List Char).length) NUL)).drop
            (([c] : List Char).length + 7 + SEPARATOR_TEXT.length + 1) := by
    simp only [List.append_assoc, List.singleton_append]
  rw [e2, cstr_append_nul]
  decide

/-- C6 fails on the code: the separator is written two bytes before the end of what
`recv` stored, whatever those two bytes are.  A banner ending in CR LF is reported
trimmed (`OK` for `OK` CR LF), but `HELLO`, which has no line terminator, is reported
as `HEL`, `OK` LF is reported as `O`, and for a one-byte banner the write cuts into the
prefix `"[OPEN] | "` itself. -/
theorem banner_without_line_end_is_cut :
    connect_routine_report 1 0 0 (some ['H', 'E', 'L', 'L', 'O'])
        = .ok (.OPEN, some (OPEN_TEXT ++ ['H', 'E', 'L'] ++ SEPARATOR_TEXT)) ∧
      trim_line_end ['H', 'E', 'L', 'L', 'O'] = ['H', 'E', 'L', 'L', 'O'] ∧
      connect_routine_report 1 0 0 (some ['H', 'E', 'L', 'L', 'O'])
        ≠ .ok (.OPEN, some (OPEN_TEXT ++ trim_line_end ['H', 'E', 'L', 'L', 'O']
            ++ SEPARATOR_TEXT)) ∧
      connect_routine_report 1 0 0 (some ['O', 'K', Char.ofNat 10])
        = .ok (.OPEN, some (OPEN_TEXT ++ ['O'] ++ SEPARATOR_TEXT)) ∧
      trim_line_end ['O', 'K', Char.ofNat 10] = ['O', 'K'] ∧
      connect_routine_report 1 0 0 (some ['A'])
        = .ok (.OPEN, some (['[', 'O', 'P', 'E', 'N', ']', ' ', '|'] ++ SEPARATOR_TEXT)) ∧
      connect_routine_report 1 0 0 (some ['O', 'K', Char.ofNat 13, Char.ofNat 10])
        = .ok (.OPEN, some (OPEN_TEXT
            ++ trim_line_end ['O', 'K', Char.ofNat 13, Char.ofNat 10] ++ SEPARATOR_TEXT)) := by
  have hr := report_with_banner 1 0 ['H', 'E', 'L', 'L', 'O']
    (by decide) (by decide) (by decide) (by decide)
  have ht : trim_line_end ['H', 'E', 'L', 'L', 'O'] = ['H', 'E', 'L', 'L', 'O'] := by decide
  have hlf := report_with_banner 1 0 ['O', 'K', Char.ofNat 10]
    (by decide) (by decide) (by decide) (by decide)
  have hcrlf := report_with_banner 1 0 ['O', 'K', Char.ofNat 13, Char.ofNat 10]
    (by decide) (by decide) (by decide) (by decide)
  refine ⟨hr, ht, ?_, hlf, by decide, report_one_byte 1 0 'A' (by decide), ?_⟩
  · rw [hr, ht]
    intro h
    injection h with h
    injection h with _ h
    injection h with h
    revert h
    decide
  · rw [hcrlf]
    have e : trim_line_end ['O', 'K', Char.ofNat 13, Char.ofNat 10] = ['O', 'K'] := by decide
    rw [e]
    rfl

/-- C7: when `connect` succeeds, banner grabbing is on and `recv` returns -1, the
iteration returns (no abort), the outcome is OPEN, and the string handed to `print_ip`
is exactly `"[OPEN] | "`, the same as with banner grabbing off. -/
theorem silent_target_reports_open (opt_bg opt_v : Int) (hbg : opt_bg ≠ 0) :
    connect_routine_report opt_bg opt_v 0 none = .ok (.OPEN, some OPEN_TEXT) ∧
      OPEN_TEXT = "[OPEN] | ".toList ∧
      (∀ incoming, connect_routine_report opt_bg opt_v 0 none
        = connect_routine_report 0 opt_v 0 incoming) := by
  refine ⟨report_silent opt_bg opt_v hbg, by decide, ?_⟩
  intro incoming
  rw [report_silent opt_bg opt_v hbg, report_no_banner_grab]

theorem silent_target_reports_open_witness :
    connect_routine_report 1 0 0 none = .ok (.OPEN, some OPEN_TEXT) ∧
      OPEN_TEXT = "[OPEN] | ".toList ∧
      (∀ incoming, connect_routine_report 1 0 0 none
        = connect_routine_report 0 0 0 incoming) :=
  silent_target_reports_open 1 0 (by decide)

/-- C10: every value `r` that the bounded `recv` of `connect_routine` can return lies
in `[-1, 1024]` (the length passed is 1022, so in fact in `[-1, 1022]`), and for every
such `r` the four bytes that `strcpy` stores at offset `9 + r - 2` lie within the
indices `0 .. 1032` of the 1033-byte buffer; no run of the iteration makes an
out-of-bounds store. -/
theorem separator_write_in_bounds :
    sizeof_buffer = 1033 ∧ recv_len = 1022 ∧
    (∀ (dest : List Char) (incoming : Option (List Char)),
      -1 ≤ (recv dest recv_offset recv_len incoming).1 ∧
      (recv dest recv_offset recv_len incoming).1 ≤ 1024 ∧
      (recv dest recv_offset recv_len incoming).1 ≤ 1022 ∧
      ∀ i ∈ strcpy_indices
          (separator_offset (recv dest recv_offset recv_len incoming).1) SEPARATOR_TEXT,
        0 ≤ i ∧ i ≤ 1032) ∧
    (∀ (opt_bg opt_v err : Int) (incoming : Option (List Char)),
      ∃ res, connect_routine_report opt_bg opt_v err incoming = .ok res) := by
  refine ⟨by decide, by decide, ?_, report_defined⟩
  intro dest incoming
  obtain ⟨h0, h1⟩ := recv_result_range dest incoming
  exact ⟨h0, by omega, h1, separator_indices_range _ h0 h1⟩

/-! ## Draining the stack -/

theorem digitChar_isdigit (m : Nat) (h : m < 10) :
    isdigit (Nat.digitChar m) = true ∧ (Nat.digitChar m).toNat - 48 = m := by
  interval_cases m <;> decide

theorem decimal_value_append (l1 l2 : List Char) :
    ∀ acc, decimal_value (l1 ++ l2) acc = decimal_value l2 (decimal_value l1 acc) := by
  induction l1 with
  | nil => intro acc; rfl
  | cons c l1 ih =>
    intro acc
    simp only [List.cons_append, decimal_value]
    exact ih _

theorem toDigitsCore_spec (fuel : Nat) :
    ∀ (n : Nat) (ds : List Char), n < fuel →
      ∃ l, Nat.toDigitsCore 10 fuel n ds = l ++ ds ∧ l ≠ [] ∧
        (∀ c ∈ l, isdigit c = true) ∧
        ∀ acc, decimal_value l acc = acc * 10 ^ l.length + n := by
  induction fuel with
  | zero => intro n ds h; omega
  | succ fuel ih =>
    intro n ds h
    obtain ⟨hd, hv⟩ := digitChar_isdigit (n % 10) (Nat.mod_lt _ (by decide))
    simp only [Nat.toDigitsCore]
    by_cases h0 : n / 10 = 0
    · rw [if_pos h0]
      refine ⟨[Nat.digitChar (n % 10)], rfl, by simp, ?_, ?_⟩
      · intro c hc
        rw [List.mem_singleton] at hc
        rw [hc]
        exact hd
      · intro acc
        simp only [decimal_value, hv, List.length_singleton, pow_one]
        omega
    · rw [if_neg h0]
      obtain ⟨l, hl, _, hdig, hval⟩ := ih (n / 10) (Nat.digitChar (n % 10) :: ds) (by omega)
      refine ⟨l ++ [Nat.digitChar (n % 10)], by rw [hl]; simp, by simp, ?_, ?_⟩
      · intro c hc
        rw [List.mem_append, List.mem_singleton] at hc
        rcases hc with hc | hc
        · exact hdig c hc
        · rw [hc]
          exact hd
      · intro acc
        rw [decimal_value_append, hval]
        simp only [decimal_value, hv, List.length_append, List.length_singleton, pow_succ]
        have := Nat.div_add_mod n 10
        nlinarith [this]

theorem numeral_spec (n : Nat) :
    numeral n ≠ [] ∧ (∀ c ∈ numeral n, isdigit c = true) ∧ decimal_value (numeral n) 0 = n := by
  obtain ⟨l, hl, hne, hdig, hval⟩ := toDigitsCore_spec (n + 1) n [] (by omega)
  have e : numeral n = l := by
    unfold numeral Nat.toDigits
    rw [hl, List.append_nil]
  rw [e]
  refine ⟨hne, hdig, ?_⟩
  rw [hval]
  simp

/-! ## `strtol` and `int_opt_parser` on numerals -/

theorem strtol_digits_all (l : List Char) (hdig : ∀ c ∈ l, isdigit c = true) :
    ∀ (acc : Nat) (any : Bool), l ≠ [] → strtol_digits l acc any = (decimal_value l acc, true, []) := by
  induction l with
  | nil => intro acc any h; exact absurd rfl h
  | cons c l ih =>
    intro acc any _
    have hc := hdig c (List.mem_cons_self _ _)
    simp only [strtol_digits, hc, if_true, decimal_value]
    cases l with
    | nil => rfl
    | cons d l =>
      exact ih (fun x hx => hdig x (List.mem_cons_of_mem _ hx)) _ _ (by simp)

theorem digit_not_space (c : Char) (h : isdigit c = true) :
    isspace c = false ∧ c ≠ '-' ∧ c ≠ '+' ∧ c ≠ ',' := by
  simp only [isdigit, Bool.and_eq_true, decide_eq_true_eq] at h
  refine ⟨?_, ?_, ?_, ?_⟩
  · simp only [isspace, Bool.or_eq_false_iff, Bool.and_eq_false_iff, decide_eq_false_iff_not]
    omega
  · rintro rfl
    revert h
    decide
  · rintro rfl
    revert h
    decide
  · rintro rfl
    revert h
    decide

theorem strtol_numeral (errno : Int) (n : Nat) (hn : (n : Int) ≤ LONG_MAX) :
    strtol errno (numeral n) = ((n : Int), [], errno) := by
  obtain ⟨hne, hdig, hval⟩ := numeral_spec n
  cases hl : numeral n with
  | nil => exact absurd hl hne
  | cons c l =>
    rw [hl] at hdig hval
    obtain ⟨hs, hm, hp, _⟩ := digit_not_space c (hdig c (List.mem_cons_self _ _))
    have hd := strtol_digits_all (c :: l) hdig 0 false (by simp)
    unfold strtol
    simp only [List.dropWhile_cons, hs, Bool.false_eq_true, if_false, if_neg hm, if_neg hp, hd,
      hval]
    exact if_neg (not_lt.mpr hn)

theorem int_opt_parse_numeral (param : String) (n : Nat) (min max : Int)
    (hn : (n : Int) ≤ INT_MAX) (hmin : min ≤ n) (hmax : (n : Int) ≤ max) :
    int_opt_parse 0 param (numeral n) min max = .ok ((n : Int), 0) := by
  have hl : (n : Int) ≤ LONG_MAX := by
    unfold INT_MAX at hn
    unfold LONG_MAX
    omega
  unfold int_opt_parse
  simp only [strtol_numeral 0 n hl, count_invalid,
    to_int_of_nonneg_le (Int.ofNat_nonneg n) hn]
  rw [if_neg (by decide), if_neg (by omega)]

/-! ## `strtok` and `parse_ports` on a port list -/

theorem ports_text_nil : ports_text [] = [] := rfl

theorem ports_text_single (p : Nat) : ports_text [p] = numeral p := by
  simp [ports_text, List.intercalate, List.intersperse]

theorem ports_text_cons_cons (p q : Nat) (ps : List Nat) :
    ports_text (p :: q :: ps) = numeral p ++ ',' :: ports_text (q :: ps) := by
  simp [ports_text, List.intercalate, List.intersperse]

theorem takeWhile_all {β : Type} (p : β → Bool) (l : List β) (hl : ∀ x ∈ l, p x = true) :
    l.takeWhile p = l ∧ l.dropWhile p = [] := by
  induction l with
  | nil => exact ⟨rfl, rfl⟩
  | cons x l ih =>
    have hx : p x = true := hl x (List.mem_cons_self _ _)
    obtain ⟨h1, h2⟩ := ih (fun y hy => hl y (List.mem_cons_of_mem _ hy))
    simp only [List.takeWhile_cons, List.dropWhile_cons, hx, if_true, h1, h2, and_self]

theorem dropWhile_append_stop {β : Type} (p : β → Bool) (l : List β) (a : β) (r : List β)
    (hl : ∀ x ∈ l, p x = true) (ha : p a = false) :
    (l ++ a :: r).dropWhile p = a :: r := by
  induction l with
  | nil => simp [List.dropWhile_cons, ha]
  | cons x l ih =>
    have hx : p x = true := hl x (List.mem_cons_self _ _)
    simp only [List.cons_append, List.dropWhile_cons, hx, if_true]
    exact ih (fun y hy => hl y (List.mem_cons_of_mem _ hy))

theorem strtok_last (l : List Char) (hne : l ≠ []) (hno : ∀ c ∈ l, c ≠ ',') :
    strtok l ',' = some (l, []) := by
  cases l with
  | nil => exact absurd rfl hne
  | cons c l =>
    have hc : c ≠ ',' := hno c (List.mem_cons_self _ _)
    obtain ⟨h1, h2⟩ := takeWhile_all (fun x => decide (x ≠ ',')) (c :: l)
      (fun x hx => by simpa using hno x hx)
    have h0 : (c :: l).dropWhile (fun x => decide (x = ',')) = c :: l := by
      simp only [List.dropWhile_cons, hc, decide_False, Bool.false_eq_true, if_false]
    unfold strtok
    rw [h0]
    show some ((c :: l).takeWhile (fun x => decide (x ≠ ',')),
      ((c :: l).dropWhile (fun x => decide (x ≠ ','))).drop 1) = some (c :: l, [])
    rw [h1, h2]
    rfl

theorem strtok_more (l rest : List Char) (hne : l ≠ []) (hno : ∀ c ∈ l, c ≠ ',') :
    strtok (l ++ ',' :: rest) ',' = some (l, rest) := by
  cases l with
  | nil => exact absurd rfl hne
  | cons c l =>
    have hc : c ≠ ',' := hno c (List.mem_cons_self _ _)
    have h1 := takeWhile_append_stop (fun x => decide (x ≠ ',')) (c :: l) ',' rest
      (fun x hx => by simpa using hno x hx) (by simp)
    have h2 := dropWhile_append_stop (fun x => decide (x ≠ ',')) (c :: l) ',' rest
      (fun x hx => by simpa using hno x hx) (by simp)
    have h0 : (c :: l ++ ',' :: rest).dropWhile (fun x => decide (x = ','))
        = c :: (l ++ ',' :: rest) := by
      simp only [List.cons_append, List.dropWhile_cons, hc, decide_False, Bool.false_eq_true,
        if_false]
    unfold strtok
    rw [h0]
    show some ((c :: (l ++ ',' :: rest)).takeWhile (fun x => decide (x ≠ ',')),
      ((c :: (l ++ ',' :: rest)).dropWhile (fun x => decide (x ≠ ','))).drop 1)
        = some (c :: l, rest)
    simp only [List.cons_append] at h1 h2
    rw [h1, h2]
    rfl

theorem numeral_no_comma (n : Nat) : numeral n ≠ [] ∧ ∀ c ∈ numeral n, c ≠ ',' := by
  obtain ⟨hne, hdig, _⟩ := numeral_spec n
  exact ⟨hne, fun c hc => (digit_not_space c (hdig c hc)).2.2.2⟩

theorem parse_ports_loop_text (ps : List Nat) :
    ∀ (fuel : Nat) (o : options_t), ps.length < fuel → o.errno = 0 →
      o.opt_ports.length + ps.length ≤ 65536 →
      (∀ p ∈ ps, 1 ≤ p ∧ p ≤ 65535) →
      parse_ports_loop fuel o (ports_text ps)
        = .ok { o with opt_ports := o.opt_ports ++ ps.map (fun (p : Nat) => (p : Int)) } := by
  induction ps with
  | nil =>
    intro fuel o hf he _ _
    obtain ⟨fuel, rfl⟩ : ∃ k, fuel = k + 1 := ⟨fuel - 1, by simp at hf; omega⟩
    simp [parse_ports_loop, ports_text_nil, strtok]
  | cons p ps ih =>
    intro fuel o hf he hlen hr
    obtain ⟨fuel, rfl⟩ : ∃ k, fuel = k + 1 := ⟨fuel - 1, by omega⟩
    obtain ⟨hne, hno⟩ := numeral_no_comma p
    obtain ⟨hp1, hp2⟩ := hr p (List.mem_cons_self _ _)
    have hparse := int_opt_parse_numeral "-p" p 1 65535
      (by unfold INT_MAX; omega) (by omega) (by omega)
    simp only [List.length_cons] at hf hlen
    have hroom : ¬ o.opt_ports.length ≥ 65536 := by omega
    cases ps with
    | nil =>
      obtain ⟨fuel, rfl⟩ : ∃ k, fuel = k + 1 := ⟨fuel - 1, by simp at hf; omega⟩
      simp only [parse_ports_loop, ports_text_single, strtok_last _ hne hno, he, hparse,
        if_neg hroom]
      simp [strtok, he]
    | cons q ps =>
      simp only [parse_ports_loop, ports_text_cons_cons, strtok_more _ _ hne hno, he, hparse,
        if_neg hroom]
      rw [ih fuel _ (by simpa using hf) rfl (by
        simp only [List.length_append, List.length_singleton, List.length_cons,
          List.length_nil] at hlen ⊢
        omega) (fun x hx => hr x (List.mem_cons_of_mem _ hx))]
      simp

theorem ports_text_length (ps : List Nat) : ps.length ≤ (ports_text ps).length := by
  induction ps with
  | nil => simp
  | cons p ps ih =>
    cases ps with
    | nil =>
      have := List.length_pos.mpr (numeral_no_comma p).1
      rw [ports_text_single]
      simpa using this
    | cons q ps =>
      rw [ports_text_cons_cons]
      simp only [List.length_append, List.length_cons] at ih ⊢
      omega

/-- C4: for a non-empty list of at most 65536 ports, each in `[1, 65535]`, `parse_ports`
on their decimal numerals joined by commas, started with an empty port list (and
`errno` clear), returns without rejection; `opt_ports_len` is the number of ports and
`opt_ports[i]` is the `i`-th port, in order. -/
theorem parse_ports_roundtrip (o : options_t) (ps : List Nat) (hne : ps ≠ [])
    (hrange : ∀ p ∈ ps, 1 ≤ p ∧ p ≤ 65535) (hlen : ps.length ≤ 65536)
    (hempty : o.opt_ports = []) (herrno : o.errno = 0) :
    ∃ o1, parse_ports o (ports_text ps) = .ok o1 ∧
      o1 = { o with opt_ports := ps.map (fun (p : Nat) => (p : Int)) } ∧
      o1.opt_ports_len = ps.length ∧
      (∀ (i : Nat) (hi : i < ps.length), o1.opt_ports[i]? = some ((ps.get ⟨i, hi⟩ : Nat) : Int)) := by
  have _ := hne
  have h := parse_ports_loop_text ps ((ports_text ps).length + 1) o
    (by have := ports_text_length ps; omega) herrno (by rw [hempty]; simpa using hlen) hrange
  rw [hempty, List.nil_append] at h
  refine ⟨_, h, rfl, ?_, ?_⟩
  · simp [options_t.opt_ports_len]
  · intro i hi
    simp [List.getElem?_eq_getElem hi]

theorem parse_ports_roundtrip_witness :
    ports_text [21, 22, 80] = "21,22,80".toList ∧
    ∃ o1, parse_ports initial_options (ports_text [21, 22, 80]) = .ok o1 ∧
      o1 = { initial_options with opt_ports := [21, 22, 80].map (fun (p : Nat) => (p : Int)) } ∧
      o1.opt_ports_len = [21, 22, 80].length ∧
      (∀ (i : Nat) (hi : i < [21, 22, 80].length),
        o1.opt_ports[i]? = some ((([21, 22, 80] : List Nat).get ⟨i, hi⟩ : Nat) : Int)) :=
  ⟨by decide, parse_ports_roundtrip initial_options [21, 22, 80] (by decide) (by decide) (by decide) rfl rfl⟩

/-- C5 fails on the code: the numeral of `2^32 + 80` denotes a value outside
`[1, 65535]`, yet the embedded `int_opt_parser` returns the port 80 for it, because the
`long` from `strtol` is cut to an `int` before the range test.  The numerals `70000` and
`0` are rejected. -/
theorem int_opt_parse_accepts_wrapped_numeral :
    numeral 4294967376 = "4294967376".toList ∧
    ¬ ((1 : Int) ≤ 4294967376 ∧ (4294967376 : Int) ≤ 65535) ∧
    int_opt_parse 0 "-p" (numeral 4294967376) 1 65535 = .ok (80, 0) ∧
    (∃ o, parse_ports initial_options (numeral 4294967376) = .ok o ∧ o.opt_ports = [80]) ∧
    int_opt_parse 0 "-p" (numeral 70000) 1 65535 = .error .exit_failure ∧
    int_opt_parse 0 "-p" (numeral 0) 1 65535 = .error .exit_failure := by
  exact ⟨by decide, by decide, rfl, ⟨_, rfl, rfl⟩, rfl, rfl⟩

/-! ## Options -/

theorem parse_ports_loop_opt_to (fuel : Nat) :
    ∀ (o o1 : options_t) (saved : List Char),
      parse_ports_loop fuel o saved = .ok o1 → o1.opt_to = o.opt_to := by
  induction fuel with
  | zero =>
    intro o o1 saved h
    simp only [parse_ports_loop] at h
    cases h
  | succ fuel ih =>
    intro o o1 saved h
    simp only [parse_ports_loop] at h
    split at h
    · injection h with h
      rw [h]
    · split at h
      · cases h
      · split at h
        · cases h
        · have h1 := ih _ _ _ h
          exact h1

theorem set_options_switch_opt_to (o o1 : options_t) (opt : Char) (optarg : List Char)
    (hopt : opt ≠ 't') (h : set_options_switch o opt optarg = .ok o1) :
    o1.opt_to = o.opt_to := by
  unfold set_options_switch at h
  split at h
  · injection h with h
    rw [← h]
  · split at h
    · split at h
      · cases h
      · injection h with h
        rw [← h]
    · split at h
      · injection h with h
        rw [← h]
        rfl
      · split at h
        · injection h with h
          rw [← h]
        · split at h
          · injection h with h
            rw [← h]
          · split at h
            · exact parse_ports_loop_opt_to _ _ _ _ h
            · split at h <;> cases h

theorem set_options_loop_opt_to (opts : List (Char × List Char)) :
    ∀ (o o1 : options_t), (∀ x ∈ opts, x.1 ≠ 't') →
      set_options_loop o opts = .ok o1 → o1.opt_to = o.opt_to := by
  induction opts with
  | nil =>
    intro o o1 _ h
    simp only [set_options_loop] at h
    injection h with h
    rw [h]
  | cons x opts ih =>
    intro o o1 hno h
    obtain ⟨opt, optarg⟩ := x
    simp only [set_options_loop] at h
    split at h
    · cases h
    · rename_i o2 hsw
      rw [ih o2 o1 (fun y hy => hno y (List.mem_cons_of_mem _ hy)) h]
      exact set_options_switch_opt_to o o2 opt optarg (hno _ (List.mem_cons_self _ _)) hsw

theorem set_options_opt_to (opts : List (Char × List Char)) (o o1 : options_t)
    (hno : ∀ x ∈ opts, x.1 ≠ 't') (h : set_options o opts = .ok o1) :
    o1.opt_to = o.opt_to := by
  unfold set_options at h
  split at h
  · cases h
  · rename_i o2 hl
    split at h
    · cases h
    · split at h
      · cases h
      · injection h with h
        rw [← h]
        exact set_options_loop_opt_to opts o o2 hno hl

/-- C8 fails on the code: the initialiser of `opt_to` is 500000 microseconds, and a
command line without `-t` leaves it there, so the timeout installed on the socket is
500 ms and not the 100 ms the help text announces. -/
theorem default_timeout_is_500_ms :
    (∀ (opts : List (Char × List Char)) (o : options_t), (∀ x ∈ opts, x.1 ≠ 't') →
      set_options initial_options opts = .ok o → o.opt_to = 500000) ∧
    (∃ o, set_options initial_options
        [('H', "example.com".toList), ('p', "80".toList)] = .ok o ∧
      o.opt_to = 500000 ∧ o.opt_to ≠ 100000 ∧
      o.opt_to ≠ HELP_DEFAULT_TIMEOUT_MS * 1000) := by
  refine ⟨?_, ?_⟩
  · intro opts o hno h
    rw [set_options_opt_to opts initial_options o hno h]
    rfl
  · exact ⟨_, rfl, by decide, by decide, by decide⟩

/-- C9 fails on the code: `case 't'` has no `break`, so processing `-t 100` also runs
`case '6'`; the command line `-t 100 -H example.com -p 80`, which has no `-6`, ends
with `opt_ipv6 = 1` and resolves with `AF_UNSPEC`. -/
theorem timeout_option_enables_ipv6 :
    (∃ o, set_options_switch initial_options 't' "100".toList = .ok o ∧
      o.opt_to = 100000 ∧ o.opt_ipv6 = 1 ∧ initial_options.opt_ipv6 = 0) ∧
    (∃ o, set_options initial_options
        [('t', "100".toList), ('H', "example.com".toList), ('p', "80".toList)] = .ok o ∧
      o.opt_ipv6 = 1 ∧ get_host_addresses_family o = AF_UNSPEC) ∧
    (∀ (o : options_t) (ms : Nat), o.errno = 0 ∧ 50 ≤ ms ∧ ms ≤ 100000 →
      set_options_switch o 't' (numeral ms)
        = .ok { o with opt_to := (ms : Int) * 1000, opt_ipv6 := 1 }) := by
  refine ⟨⟨_, rfl, by decide, by decide, by decide⟩, ⟨_, rfl, by decide, by decide⟩, ?_⟩
  rintro o ms ⟨he, h1, h2⟩
  have hparse := int_opt_parse_numeral "-t" ms 50 100000
    (by unfold INT_MAX; omega) (by omega) (by omega)
  unfold set_options_switch
  rw [if_neg (by decide), if_neg (by decide), if_pos rfl, he, hparse]
  simp only [set_options_case_6, ← he]

end Tcpscan
